import Mathlib

/-!
# Verification of the nfl-experiments feature-engineering and separation pipeline

Shallow embedding of the algorithmic core of the repository:

* geometry utilities and the per-frame/per-group feature derivations of
  `experiments/exp_002_safeties_vs_cornerbacks/scripts/engineer_features.py`
  (`calculate_angular_difference`, the kinematic at-throw extraction, the
  temporal diff / rolling-mean features, `create_play_level_dataset`);
* the nearest-defender separation finder of
  `scripts/add_defender_tracking.py` (`find_nearest_defender`).

Conventions of the embedding:

* real-valued columns are modelled as exact rationals (`ℚ`);
* a NaN-able column is `Option ℚ`, `none` standing for NaN;
* the source computes Euclidean distances `sqrt((x2-x1)^2+(y2-y1)^2)`.
  Square roots of rationals are irrational in general, so the embedding
  carries the squared distance (`dist2`) and theorems phrase statements
  about the Euclidean distance through `Real.sqrt` of that square.  All
  comparisons the code performs on distances (argmin, thresholds 3 and 5)
  are equivalent on squares because `Real.sqrt` is monotone on
  nonnegatives: `sqrt d ≤ 3 ↔ d ≤ 9`, and the index of the minimal
  distance is the index of the minimal squared distance;
* pandas group-wise operations (`groupby(...).transform`, `.diff()`,
  `.rolling(...)`) apply a per-group function to each group's rows taken
  in their current order; the embedding states them on one group's column
  as a list.

The file is organised as definitions (the embedding) first, then the
theorems settling the specification's claims.
-/

namespace NFL

/-! ## Geometry utilities (engineer_features.py lines 31-58) -/

/-- `calculate_distance` squared: the code computes
`np.sqrt((x2-x1)**2 + (y2-y1)**2)`; we carry the radicand exactly. -/
def dist2 (x1 y1 x2 y2 : ℚ) : ℚ :=
  (x2 - x1) ^ 2 + (y2 - y1) ^ 2

/-- `calculate_angular_difference(angle1, angle2)`:
`diff = np.abs(angle1 - angle2); diff = np.where(diff > 180, 360 - diff, diff)`. -/
def calculate_angular_difference (angle1 angle2 : ℚ) : ℚ :=
  let diff := |angle1 - angle2|
  if diff > 180 then 360 - diff else diff

/-- The same function applied elementwise over two vectors of angles, as
numpy broadcasting does when the script passes whole columns. -/
def angularDifferenceVec (v1 v2 : List ℚ) : List ℚ :=
  List.zipWith calculate_angular_difference v1 v2

/-! ## Temporal features (engineer_features.py lines 246-276)

`engineer_temporal_features` sorts by (game_id, play_id, nfl_id, frame_id)
and then, per group, computes `dist_change = diff(dist_to_ball_landing)`,
`closing_rate = -dist_change`, and
`closing_rate_smooth = closing_rate.rolling(window=W, min_periods=1).mean()`.
The embedding takes one group's `dist_to_ball_landing` column, in ascending
frame order, as a list of rationals. -/

/-- Tail worker for the pandas `Series.diff()`: `prev` is the previous
element, each output entry is current minus previous. -/
def seriesDiffAux (prev : ℚ) : List ℚ → List (Option ℚ)
  | [] => []
  | x :: xs => some (x - prev) :: seriesDiffAux x xs

/-- pandas `Series.diff()` on one group's column: first entry NaN, then
elementwise difference with the previous entry. -/
def seriesDiff : List ℚ → List (Option ℚ)
  | [] => []
  | x :: xs => none :: seriesDiffAux x xs

/-- `closing_rate = -dist_change`; negation propagates NaN. -/
def closingRate (d : List ℚ) : List (Option ℚ) :=
  (seriesDiff d).map (Option.map Neg.neg)

/-- pandas mean of the observations in a window: NaN entries are skipped,
and the result is NaN when no observation remains (`min_periods=1`). -/
def nanMean (xs : List (Option ℚ)) : Option ℚ :=
  let vs := xs.filterMap id
  if vs.length = 0 then none else some (vs.sum / (vs.length : ℚ))

/-- pandas `rolling(window=W, min_periods=1).mean()`: at position `i` the
window is the positions `max(0, i+1-W) .. i`. -/
def rollingMeanMP1 (W : ℕ) (xs : List (Option ℚ)) : List (Option ℚ) :=
  (List.range xs.length).map (fun i => nanMean ((xs.take (i+1)).drop (i + 1 - W)))

/-- `closing_rate_smooth` for one group. -/
def closingRateSmooth (W : ℕ) (d : List ℚ) : List (Option ℚ) :=
  rollingMeanMP1 W (closingRate d)

/-- Trailing window exactly as the specification words it: the
`min(i+1, W)` entries ending at position `i`, clipped at the group start. -/
def specTrailingWindow (W : ℕ) (xs : List (Option ℚ)) (i : ℕ) : List (Option ℚ) :=
  (List.range (min (i+1) W)).map (fun k => xs.getD (i + 1 - min (i+1) W + k) none)

/-! ## Kinematic at-throw extraction (engineer_features.py lines 150-166)

`engineer_kinematic_features` computes, per (game_id, play_id, nfl_id)
group, `last_frame = frame_id.max()`, writes `s` (resp. `a`) on the rows
whose frame_id equals that max and NaN elsewhere, then backward-fills
within the group.  The embedding takes one group's rows in order. -/

/-- One group row of the kinematic stage: frame_id with the speed column
`s` and the acceleration column `a`. -/
structure KinRow where
  frame_id : ℕ
  s : ℚ
  a : ℚ
deriving DecidableEq, Repr

/-- pandas `.max()` on a column of naturals. -/
def maxNat (l : List ℕ) : ℕ := l.foldl max 0

/-- `np.where(frame_id == last_frame, col, nan)` for one group, with
`last_frame = frame_id.max()` broadcast group-wise. -/
def markAtThrow (proj : KinRow → ℚ) (rows : List KinRow) : List (Option ℚ) :=
  let lastF := maxNat (rows.map (·.frame_id))
  rows.map (fun r => if r.frame_id = lastF then some (proj r) else none)

/-- pandas `fillna(method=bfill)`: each NaN is replaced by the next valid
value below it, if any. -/
def bfill : List (Option ℚ) → List (Option ℚ)
  | [] => []
  | x :: xs =>
    let rest := bfill xs
    match x with
    | some v => some v :: rest
    | none => rest.headD none :: rest

/-- `speed_at_throw` column for one group. -/
def speedAtThrow (rows : List KinRow) : List (Option ℚ) :=
  bfill (markAtThrow (·.s) rows)

/-- `accel_at_throw` column for one group. -/
def accelAtThrow (rows : List KinRow) : List (Option ℚ) :=
  bfill (markAtThrow (·.a) rows)

/-! ## Play-level aggregator (engineer_features.py lines 386-399)

`create_play_level_dataset` groups the frame table by
(game_id, play_id, nfl_id) and aggregates every retained column with
pandas `first`.  pandas `GroupBy.first` skips nulls: each retained
column of the output row holds that column's first NON-NULL value within
the group, in the table's current row order, and stays NaN when the
column is null throughout the group.  The embedding keeps the retained
columns of a row as one NaN-able payload list of a fixed width `ncols`
(the configured retain-list is the same for every group); pandas sorts
group keys, hence the sort over the distinct keys. -/

/-- One frame-level row as seen by the aggregator: the grouping key and
the retained columns' values, NaN-able (`none` models NaN, e.g. a
`reaction_frame_min` that never triggered or a single-frame
`std_speed`). -/
structure AggRow where
  game_id : ℕ
  play_id : ℕ
  nfl_id : ℕ
  vals : List (Option ℚ)
deriving DecidableEq, Repr

/-- The (game_id, play_id, nfl_id) grouping key. -/
def aggKey (r : AggRow) : ℕ × ℕ × ℕ := (r.game_id, r.play_id, r.nfl_id)

/-- Lexicographic order on grouping keys, as pandas sorts group labels. -/
def keyLe (k1 k2 : ℕ × ℕ × ℕ) : Bool :=
  if k1.1 < k2.1 then true
  else if k2.1 < k1.1 then false
  else if k1.2.1 < k2.2.1 then true
  else if k2.2.1 < k1.2.1 then false
  else decide (k1.2.2 ≤ k2.2.2)

/-- Distinct values in order of first appearance, as pandas `unique` and
distinct group labels enumerate them. -/
def uniqueFirst {α : Type} [DecidableEq α] : List α → List α
  | [] => []
  | k :: ks => k :: (uniqueFirst ks).filter (fun x => x ≠ k)

/-- Insert into a sorted list, before the first strictly greater element
(stable: an element equal under `le` stays behind earlier ones). -/
def insertLe {α : Type} (le : α → α → Bool) (a : α) : List α → List α
  | [] => [a]
  | x :: xs => if le a x then a :: x :: xs else x :: insertLe le a xs

/-- Stable insertion sort; the embedding of a stable comparison sort
(pandas `sort_values`, sorted group labels). -/
def sortLe {α : Type} (le : α → α → Bool) : List α → List α
  | [] => []
  | a :: l => insertLe le a (sortLe le l)

/-- pandas `GroupBy.first` on one retained column `j` of a group `g`:
the column's first non-null value in row order, NaN when every entry of
the column is null. -/
def colFirst (g : List AggRow) (j : ℕ) : Option ℚ :=
  ((g.map (fun r => r.vals.getD j none)).filterMap id).head?

/-- `df.groupby([game_id, play_id, nfl_id]).agg({col: first for col in kept})`:
one row per distinct key, sorted by key; column `j` of a group's output
row is the group's first non-null value of column `j` (pandas `first`
skips nulls). -/
def create_play_level_dataset (ncols : ℕ) (rows : List AggRow) : List AggRow :=
  (sortLe keyLe (uniqueFirst (rows.map aggKey))).map
    (fun k => ⟨k.1, k.2.1, k.2.2,
      (List.range ncols).map
        (fun j => colFirst (rows.filter (fun r => aggKey r = k)) j)⟩)

/-- The amended claim's words, stated independently of the code: `v` is
"the column's first non-null value by original row order" when either
every entry of the column is null and `v` is NaN, or `v` is the non-null
entry at some position all of whose predecessors are null. -/
def IsFirstNonNull (col : List (Option ℚ)) (v : Option ℚ) : Prop :=
  (v = none ∧ ∀ x ∈ col, x = none) ∨
  (v ≠ none ∧ ∃ i, ∃ hi : i < col.length, col.get ⟨i, hi⟩ = v ∧
    ∀ i2, ∀ hi2 : i2 < col.length, i2 < i → col.get ⟨i2, hi2⟩ = none)

/-! ## Nearest-defender separation finder (add_defender_tracking.py lines 62-224)

`find_nearest_defender(tracking_df, supp_df)` iterates over the targeted
plays of the supplementary table (rows whose
`route_of_targeted_receiver` is neither NaN nor the empty string), and
for each one either appends one result record or `continue`s.  The
embedding keeps the loop body as `processPlay` (a total function into
`Option SepRecord`, `none` standing for a silent skip) and the loop as a
`filterMap`.  Distances appear as squares (see the header). -/

/-- One tracking row of the weekly input files. -/
structure TrackRow where
  game_id : ℕ
  play_id : ℕ
  nfl_id : ℕ
  frame_id : ℕ
  x : ℚ
  y : ℚ
  player_side : String
  player_position : String
  player_name : String
deriving DecidableEq, Repr

/-- One supplementary-table row; `none` models a NaN route cell. -/
structure SuppRow where
  game_id : ℕ
  play_id : ℕ
  route_of_targeted_receiver : Option String
deriving DecidableEq, Repr

/-- One entry of the `player_displacements` list built in the loop. -/
structure Candidate where
  nfl_id : ℕ
  displacement_sq : ℚ
  position : String
  name : String
deriving DecidableEq, Repr

/-- One row of `defenders_throw`/`defenders_snap` with its
`distance_to_receiver` column, squared. -/
structure DefDist where
  row : TrackRow
  dist_sq : ℚ
deriving DecidableEq, Repr

/-- One emitted separation record.  `separation_at_throw` in the code is
the square root of `separation_at_throw_sq`; `coverage_cushion` is NaN
iff `coverage_cushion_sq` is `none`, and `separation_change`
(`separation_at_throw - coverage_cushion`) is NaN iff
`separation_change_isNaN`. -/
structure SepRecord where
  game_id : ℕ
  play_id : ℕ
  route : String
  receiver_nfl_id : ℕ
  receiver_name : String
  receiver_position : String
  receiver_x : ℚ
  receiver_y : ℚ
  nearest_defender_id : ℕ
  nearest_defender_name : String
  nearest_defender_position : String
  separation_at_throw_sq : ℚ
  coverage_cushion_sq : Option ℚ
  separation_change_isNaN : Bool
  defenders_within_3yd : ℕ
  defenders_within_5yd : ℕ
  throw_frame_id : ℕ
deriving DecidableEq, Repr

/-- pandas `.min()` on a column of naturals (used only on nonempty data). -/
def minNat (l : List ℕ) : ℕ :=
  match l with
  | [] => 0
  | x :: xs => xs.foldl min x

/-- pandas `.min()` on a rational column, NaN (none) when empty. -/
def minRat (l : List ℚ) : Option ℚ :=
  match l with
  | [] => none
  | x :: xs => some (xs.foldl min x)

/-- `play_data`: the tracking rows of one (game_id, play_id). -/
def playData (tracking : List TrackRow) (g p : ℕ) : List TrackRow :=
  tracking.filter (fun r => r.game_id = g ∧ r.play_id = p)

/-- `throw_frame_id = play_data.frame_id.max()`. -/
def throwFrameId (pd : List TrackRow) : ℕ := maxNat (pd.map (·.frame_id))

/-- `snap_frame_id = play_data.frame_id.min()`. -/
def snapFrameId (pd : List TrackRow) : ℕ := minNat (pd.map (·.frame_id))

/-- `throw_frame`: rows of the play at the throw frame. -/
def throwFrame (pd : List TrackRow) : List TrackRow :=
  pd.filter (fun r => r.frame_id = throwFrameId pd)

/-- `snap_frame`: rows of the play at the snap frame. -/
def snapFrame (pd : List TrackRow) : List TrackRow :=
  pd.filter (fun r => r.frame_id = snapFrameId pd)

/-- `offensive_players = play_data[play_data.player_side == 'Offense']`. -/
def offensivePlayers (pd : List TrackRow) : List TrackRow :=
  pd.filter (fun r => r.player_side = "Offense")

/-- The fixed receiver/runner position allow-list of the loop. -/
def receiverPositions : List String := ["WR", "TE", "RB", "FB"]

/-- `offensive_players[offensive_players.nfl_id == id].sort_values(frame_id)`
(pandas sort_values is stable, as is the insertion sort). -/
def playerFramesSorted (off : List TrackRow) (id : ℕ) : List TrackRow :=
  sortLe (fun a b => a.frame_id ≤ b.frame_id)
    (off.filter (fun r => r.nfl_id = id))

/-- One step of the displacement loop: skip the player when it has fewer
than two frames, compute the first-to-last displacement, keep the player
only when its (first-frame) position is in the allow-list. -/
def mkCandidate (off : List TrackRow) (id : ℕ) : Option Candidate :=
  if (playerFramesSorted off id).length < 2 then none
  else
    match (playerFramesSorted off id).head?, (playerFramesSorted off id).getLast? with
    | some fr, some la =>
      if fr.player_position ∈ receiverPositions then
        some ⟨id, dist2 fr.x fr.y la.x la.y, fr.player_position, fr.player_name⟩
      else none
    | _, _ => none

/-- `player_displacements`: candidates over the distinct offensive
nfl_ids, in first-appearance order as pandas `unique` yields them. -/
def playerDisplacements (off : List TrackRow) : List Candidate :=
  (uniqueFirst (off.map (·.nfl_id))).filterMap (mkCandidate off)

/-- Python `max(..., key=displacement)` keeps the first maximal element;
the accumulator is replaced only on a strictly greater displacement. -/
def maxByDispAux (c : Candidate) : List Candidate → Candidate
  | [] => c
  | d :: ds => maxByDispAux (if c.displacement_sq < d.displacement_sq then d else c) ds

/-- `target_player = max(player_displacements, key=...)`, `none` when the
list is empty (the code `continue`s before calling max). -/
def targetOf (off : List TrackRow) : Option Candidate :=
  match playerDisplacements off with
  | [] => none
  | c :: cs => some (maxByDispAux c cs)

/-- `receiver_throw = throw_frame[throw_frame.nfl_id == target].iloc[0]`,
`none` when that selection is empty. -/
def receiverThrow (pd : List TrackRow) (id : ℕ) : Option TrackRow :=
  ((throwFrame pd).filter (fun r => r.nfl_id = id)).head?

/-- `receiver_snap`, `none` when the receiver is absent at the snap. -/
def receiverSnap (pd : List TrackRow) (id : ℕ) : Option TrackRow :=
  ((snapFrame pd).filter (fun r => r.nfl_id = id)).head?

/-- `defenders_throw = throw_frame[throw_frame.player_side == 'Defense']`. -/
def defendersThrow (pd : List TrackRow) : List TrackRow :=
  (throwFrame pd).filter (fun r => r.player_side = "Defense")

/-- `defenders_snap`. -/
def defendersSnap (pd : List TrackRow) : List TrackRow :=
  (snapFrame pd).filter (fun r => r.player_side = "Defense")

/-- The `distance_to_receiver` column (squared) attached to each defender
row: the code computes `sqrt((d.x - rx)^2 + (d.y - ry)^2)`. -/
def defenderDists (defenders : List TrackRow) (rx ry : ℚ) : List DefDist :=
  defenders.map (fun d => ⟨d, dist2 rx ry d.x d.y⟩)

/-- pandas `idxmin` keeps the first minimal element; the accumulator is
replaced only on a strictly smaller distance. -/
def minByDistAux (c : DefDist) : List DefDist → DefDist
  | [] => c
  | d :: ds => minByDistAux (if d.dist_sq < c.dist_sq then d else c) ds

/-- `nearest = defenders_throw.loc[distance_to_receiver.idxmin()]`,
`none` when there is no defender (the code `continue`s before this). -/
def nearestDefender (l : List DefDist) : Option DefDist :=
  match l with
  | [] => none
  | c :: cs => some (minByDistAux c cs)

/-- `coverage_cushion` (squared): NaN when the receiver is absent at the
snap frame or no defender is present there; else the minimum squared
snap distance. -/
def cushionOf (pd : List TrackRow) (id : ℕ) : Option ℚ :=
  match receiverSnap pd id with
  | none => none
  | some rs => minRat ((defenderDists (defendersSnap pd) rs.x rs.y).map (·.dist_sq))

/-- The body of the per-play loop of `find_nearest_defender`: `none`
models `continue` (a silent skip), `some` models appending one record.
The guards appear in the code's order: empty play, no offensive player,
no eligible candidate, no receiver row at throw, no defender at throw. -/
def processPlay (tracking : List TrackRow) (g p : ℕ) (route : String) :
    Option SepRecord :=
  if playData tracking g p = [] then none
  else if offensivePlayers (playData tracking g p) = [] then none
  else
    match targetOf (offensivePlayers (playData tracking g p)) with
    | none => none
    | some target =>
      match receiverThrow (playData tracking g p) target.nfl_id with
      | none => none
      | some recv =>
        match nearestDefender
            (defenderDists (defendersThrow (playData tracking g p)) recv.x recv.y) with
        | none => none
        | some nearest =>
          some ⟨g, p, route, target.nfl_id, target.name, target.position,
            recv.x, recv.y,
            nearest.row.nfl_id, nearest.row.player_name, nearest.row.player_position,
            nearest.dist_sq,
            cushionOf (playData tracking g p) target.nfl_id,
            (cushionOf (playData tracking g p) target.nfl_id).isNone,
            ((defenderDists (defendersThrow (playData tracking g p)) recv.x recv.y).filter
              (fun d => d.dist_sq ≤ 9)).length,
            ((defenderDists (defendersThrow (playData tracking g p)) recv.x recv.y).filter
              (fun d => d.dist_sq ≤ 25)).length,
            throwFrameId (playData tracking g p)⟩

/-- The targeted-play filter:
`route_of_targeted_receiver.notna() & (route_of_targeted_receiver != '')`. -/
def isTargeted (r : SuppRow) : Bool :=
  match r.route_of_targeted_receiver with
  | none => false
  | some s => s ≠ ""

/-- `find_nearest_defender`: one optional record per targeted play row. -/
def find_nearest_defender (tracking : List TrackRow) (supp : List SuppRow) :
    List SepRecord :=
  (supp.filter isTargeted).filterMap
    (fun r => processPlay tracking r.game_id r.play_id
      (r.route_of_targeted_receiver.getD ""))

/-- The (game_id, play_id) keys of the emitted records. -/
def recordKeys (rs : List SepRecord) : List (ℕ × ℕ) :=
  rs.map (fun r => (r.game_id, r.play_id))

/-- Specification-side displacement (squared) of any offensive player:
straight-line displacement between the first-by-frame_id and
last-by-frame_id positions (0 for a single-frame player, whose first and
last frames coincide). -/
def playerDispSq (off : List TrackRow) (id : ℕ) : ℚ :=
  match (playerFramesSorted off id).head?, (playerFramesSorted off id).getLast? with
  | some fr, some la => dist2 fr.x fr.y la.x la.y
  | _, _ => 0

/-- A player's position, read off its first frame as the code does. -/
def playerPositionOf (off : List TrackRow) (id : ℕ) : Option String :=
  (playerFramesSorted off id).head?.map (·.player_position)

/-- Receiver-eligibility of an offensive player: its (first-frame)
position is in the allow-list. -/
def isEligible (off : List TrackRow) (id : ℕ) : Bool :=
  match playerPositionOf off id with
  | some s => s ∈ receiverPositions
  | none => false

/-- A three-row play (game 1, play 1): an offensive WR moving from (0,0)
to (5,0) and a defender at (8,0) at the throw frame — the spec's test
vector (separation 3, one defender within 5). -/
def wT1 : List TrackRow := [
  ⟨1, 1, 10, 1, 0, 0, "Offense", "WR", "A"⟩,
  ⟨1, 1, 10, 2, 5, 0, "Offense", "WR", "A"⟩,
  ⟨1, 1, 20, 2, 8, 0, "Defense", "CB", "C"⟩]

/-- A play (game 1, play 2) whose only eligible offensive player has a
single frame, with a defender present. -/
def wT2 : List TrackRow := [
  ⟨1, 2, 30, 1, 0, 0, "Offense", "WR", "D"⟩,
  ⟨1, 2, 40, 1, 1, 0, "Defense", "CB", "E"⟩]

/-- A play (game 1, play 3) whose receiver (frames 2,3) is absent at the
play's snap frame (frame 1, held only by the defender). -/
def wT3 : List TrackRow := [
  ⟨1, 3, 50, 2, 0, 0, "Offense", "WR", "F"⟩,
  ⟨1, 3, 50, 3, 5, 0, "Offense", "WR", "F"⟩,
  ⟨1, 3, 60, 1, 1, 0, "Defense", "CB", "G"⟩,
  ⟨1, 3, 60, 3, 8, 0, "Defense", "CB", "G"⟩]

/-- A supplementary table holding the same targeted play twice. -/
def wSuppDup : List SuppRow := [⟨1, 1, some "GO"⟩, ⟨1, 1, some "GO"⟩]

theorem dist2_nonneg (x1 y1 x2 y2 : ℚ) : 0 ≤ dist2 x1 y1 x2 y2 := by
  unfold dist2
  positivity

/-- C8: for angles in [0,360), `calculate_angular_difference` is
`|a1-a2|` when that is at most 180 and `360-|a1-a2|` otherwise, its value
lies in [0,180], the wraparound example 350 vs 10 gives 20, and the
vector version acts elementwise. -/
theorem C8_angular_difference (a1 a2 : ℚ)
    (h1 : 0 ≤ a1) (h2 : a1 < 360) (h3 : 0 ≤ a2) (h4 : a2 < 360) :
    (calculate_angular_difference a1 a2 =
      if |a1 - a2| ≤ 180 then |a1 - a2| else 360 - |a1 - a2|) ∧
    0 ≤ calculate_angular_difference a1 a2 ∧
    calculate_angular_difference a1 a2 ≤ 180 ∧
    calculate_angular_difference 350 10 = 20 ∧
    (∀ (v1 v2 : List ℚ) (i : ℕ), i < v1.length → i < v2.length →
      (angularDifferenceVec v1 v2).get? i =
        some (calculate_angular_difference (v1.getD i 0) (v2.getD i 0))) := by
  have habs : |a1 - a2| < 360 := by
    rw [abs_lt]
    constructor <;> linarith
  have habs0 : 0 ≤ |a1 - a2| := abs_nonneg _
  refine ⟨?_, ?_, ?_, ?_, ?_⟩
  · unfold calculate_angular_difference
    by_cases hgt : |a1 - a2| > 180
    · rw [if_pos hgt, if_neg (by linarith)]
    · rw [if_neg hgt, if_pos (by linarith)]
  · unfold calculate_angular_difference
    by_cases hgt : |a1 - a2| > 180
    · rw [if_pos hgt]; linarith
    · rw [if_neg hgt]; linarith
  · unfold calculate_angular_difference
    by_cases hgt : |a1 - a2| > 180
    · rw [if_pos hgt]; linarith
    · rw [if_neg hgt]; linarith
  · unfold calculate_angular_difference
    norm_num
  · intro v1 v2 i hi1 hi2
    unfold angularDifferenceVec
    rw [List.get?_zipWith]
    have e1 : v1.get? i = some (v1.getD i 0) := by
      rw [List.getD_eq_get?]
      cases hv : v1.get? i with
      | none => exact absurd (List.get?_eq_none.mp hv) (by omega)
      | some a => simp [hv]
    have e2 : v2.get? i = some (v2.getD i 0) := by
      rw [List.getD_eq_get?]
      cases hv : v2.get? i with
      | none => exact absurd (List.get?_eq_none.mp hv) (by omega)
      | some a => simp [hv]
    rw [e1, e2]

/-- Witness for C8 at concrete angles 350 and 10. -/
theorem C8_angular_difference_witness :
    calculate_angular_difference 350 10 = 20 := by
  have h := C8_angular_difference 350 10 (by norm_num) (by norm_num)
    (by norm_num) (by norm_num)
  exact h.2.2.2.1

theorem seriesDiffAux_length (prev : ℚ) (xs : List ℚ) :
    (seriesDiffAux prev xs).length = xs.length := by
  induction xs generalizing prev with
  | nil => rfl
  | cons x xs ih => simp [seriesDiffAux, ih]

theorem seriesDiff_length (d : List ℚ) : (seriesDiff d).length = d.length := by
  cases d with
  | nil => rfl
  | cons x xs => simp [seriesDiff, seriesDiffAux_length]

theorem closingRate_length (d : List ℚ) : (closingRate d).length = d.length := by
  simp [closingRate, seriesDiff_length]

theorem rollingMeanMP1_length (W : ℕ) (xs : List (Option ℚ)) :
    (rollingMeanMP1 W xs).length = xs.length := by
  simp [rollingMeanMP1]

theorem seriesDiffAux_get? (prev : ℚ) (xs : List ℚ) (i : ℕ) (hi : i < xs.length) :
    (seriesDiffAux prev xs).get? i =
      some (some (xs.getD i 0 - (if i = 0 then prev else xs.getD (i-1) 0))) := by
  induction xs generalizing prev i with
  | nil => simp at hi
  | cons x xs ih =>
    cases i with
    | zero => simp [seriesDiffAux]
    | succ n =>
      simp only [seriesDiffAux, List.get?_cons_succ]
      rw [ih x n (by simpa using hi)]
      cases n with
      | zero => simp
      | succ m => simp

theorem seriesDiff_get?_zero (d : List ℚ) (hd : d ≠ []) :
    (seriesDiff d).get? 0 = some none := by
  cases d with
  | nil => exact absurd rfl hd
  | cons x xs => rfl

theorem seriesDiff_get?_pos (d : List ℚ) (i : ℕ) (h0 : 0 < i) (hi : i < d.length) :
    (seriesDiff d).get? i = some (some (d.getD i 0 - d.getD (i-1) 0)) := by
  cases d with
  | nil => simp at hi
  | cons x xs =>
    cases i with
    | zero => omega
    | succ n =>
      simp only [seriesDiff, List.get?_cons_succ]
      rw [seriesDiffAux_get? x xs n (by simpa using hi)]
      cases n with
      | zero => simp
      | succ m => simp

theorem rollingMeanMP1_get? (W : ℕ) (xs : List (Option ℚ)) (i : ℕ)
    (hi : i < xs.length) :
    (rollingMeanMP1 W xs).get? i =
      some (nanMean ((xs.take (i+1)).drop (i + 1 - W))) := by
  unfold rollingMeanMP1
  rw [List.get?_map, List.get?_range hi]
  rfl

/-- The positional slice the pandas rolling window takes is exactly the
specification's trailing window of size `min(i+1, W)`. -/
theorem slice_eq_trailing_window (xs : List (Option ℚ)) (W i : ℕ)
    (hW : 0 < W) (hi : i < xs.length) :
    (xs.take (i+1)).drop (i + 1 - W) = specTrailingWindow W xs i := by
  apply List.ext_getElem
  · simp only [List.length_drop, List.length_take, specTrailingWindow,
      List.length_map, List.length_range]
    omega
  · intro n h1 h2
    have hlen : n < min (i+1) W := by
      simp only [List.length_drop, List.length_take] at h1
      omega
    simp only [specTrailingWindow, List.getElem_map, List.getElem_range,
      List.getD_eq_getElem?_getD]
    rw [List.getElem_drop, List.getElem_take]
    have hix : i + 1 - min (i+1) W + n < xs.length := by omega
    rw [List.getElem?_eq_getElem hix]
    simp only [Option.getD_some]
    congr 1
    omega

theorem specTrailingWindow_length (W : ℕ) (xs : List (Option ℚ)) (i : ℕ) :
    (specTrailingWindow W xs i).length = min (i+1) W := by
  simp [specTrailingWindow]

/-- C3: per sorted (game_id, play_id, player_id) group, `closing_rate[i]`
is `-(dist[i] - dist[i-1])` with a NaN first entry, and
`closing_rate_smooth[i]` is the NaN-skipping arithmetic mean of
`closing_rate` over the trailing window of `min(i+1, W)` entries clipped
at the group start; in particular the first smoothed entry equals the
first `closing_rate` entry. -/
theorem C3_closing_rate_smooth (d : List ℚ) (W i : ℕ)
    (hW : 0 < W) (hi : i < d.length) :
    ((closingRate d).get? 0 = some none) ∧
    (0 < i → (closingRate d).get? i =
      some (some (-(d.getD i 0 - d.getD (i-1) 0)))) ∧
    ((closingRateSmooth W d).get? i =
      some (nanMean (specTrailingWindow W (closingRate d) i))) ∧
    ((specTrailingWindow W (closingRate d) i).length = min (i+1) W) ∧
    ((closingRateSmooth W d).get? 0 = (closingRate d).get? 0) := by
  have hd : d ≠ [] := by
    intro h; rw [h] at hi; simp at hi
  have hcr : (closingRate d).length = d.length := closingRate_length d
  have hcr0 : (closingRate d).get? 0 = some none := by
    unfold closingRate
    rw [List.get?_map, seriesDiff_get?_zero d hd]
    rfl
  refine ⟨hcr0, ?_, ?_, specTrailingWindow_length _ _ _, ?_⟩
  · intro h0
    unfold closingRate
    rw [List.get?_map, seriesDiff_get?_pos d i h0 hi]
    rfl
  · unfold closingRateSmooth
    rw [rollingMeanMP1_get? W _ i (by omega),
      slice_eq_trailing_window _ W i hW (by omega)]
  · unfold closingRateSmooth
    rw [rollingMeanMP1_get? W _ 0 (by omega),
      slice_eq_trailing_window _ W 0 hW (by omega), hcr0]
    have hw : specTrailingWindow W (closingRate d) 0 = [(closingRate d).getD 0 none] := by
      unfold specTrailingWindow
      have hmin : min (0+1) W = 1 := by omega
      rw [hmin]
      rfl
    rw [hw]
    have hz : (closingRate d).getD 0 none = none := by
      rw [List.getD_eq_get?, hcr0]
      rfl
    rw [hz]
    rfl

/-- Witness for C3 on the column [5, 3, 2] with window 2 at index 1. -/
theorem C3_closing_rate_smooth_witness :
    (closingRateSmooth 2 [5, 3, 2]).get? 1 =
      some (nanMean (specTrailingWindow 2 (closingRate [5, 3, 2]) 1)) :=
  (C3_closing_rate_smooth [5, 3, 2] 2 1 (by norm_num) (by norm_num)).2.2.1

theorem foldl_max_init_le (l : List ℕ) (a : ℕ) : a ≤ l.foldl max a := by
  induction l generalizing a with
  | nil => simp
  | cons x xs ih => exact le_trans (le_max_left a x) (ih (max a x))

theorem mem_le_foldl_max (l : List ℕ) (a x : ℕ) (hx : x ∈ l) :
    x ≤ l.foldl max a := by
  induction l generalizing a with
  | nil => simp at hx
  | cons y ys ih =>
    rcases List.mem_cons.mp hx with h | h
    · subst h
      exact le_trans (le_max_right a x) (foldl_max_init_le ys (max a x))
    · exact ih (max a y) h

theorem foldl_max_mem_or_init (l : List ℕ) (a : ℕ) :
    l.foldl max a = a ∨ l.foldl max a ∈ l := by
  induction l generalizing a with
  | nil => exact Or.inl rfl
  | cons x xs ih =>
    rcases ih (max a x) with h | h
    · rcases Nat.le_total a x with hle | hle
      · right
        simp only [List.foldl_cons]
        rw [h, max_eq_right hle]
        exact List.mem_cons_self x xs
      · left
        simp only [List.foldl_cons]
        rw [h, max_eq_left hle]
    · right
      simp only [List.foldl_cons]
      exact List.mem_cons_of_mem x h

theorem chainFrames_pairwise (rows : List KinRow)
    (hs : List.Chain' (fun p q : KinRow => p.frame_id < q.frame_id) rows) :
    List.Pairwise (fun p q : KinRow => p.frame_id < q.frame_id) rows := by
  haveI : IsTrans KinRow (fun p q : KinRow => p.frame_id < q.frame_id) :=
    ⟨fun _ _ _ h1 h2 => Nat.lt_trans h1 h2⟩
  exact List.chain'_iff_pairwise.mp hs

/-- A row strictly before the end of a strictly increasing frame sequence
has a strictly smaller frame_id than the last row. -/
theorem frameId_lt_getLast (rows : List KinRow) (hne : rows ≠ [])
    (hpw : List.Pairwise (fun p q : KinRow => p.frame_id < q.frame_id) rows)
    (i : ℕ) (hi : i < rows.length) (hlt : i < rows.length - 1) :
    (rows.get ⟨i, hi⟩).frame_id < (rows.getLast hne).frame_id := by
  rw [List.getLast_eq_get]
  exact (List.pairwise_iff_get.mp hpw) ⟨i, hi⟩ ⟨rows.length - 1, by omega⟩
    (Fin.mk_lt_mk.mpr hlt)

/-- On a nonempty frame sequence with strictly increasing frame_ids, the
group's maximum frame_id is the last row's. -/
theorem maxNat_eq_getLast_of_sorted (rows : List KinRow) (hne : rows ≠ [])
    (hs : List.Chain' (fun p q : KinRow => p.frame_id < q.frame_id) rows) :
    maxNat (rows.map (·.frame_id)) = (rows.getLast hne).frame_id := by
  have hpw := chainFrames_pairwise rows hs
  have hlast_mem : (rows.getLast hne).frame_id ∈ rows.map (·.frame_id) :=
    List.mem_map_of_mem _ (List.getLast_mem hne)
  have h1 : (rows.getLast hne).frame_id ≤ maxNat (rows.map (·.frame_id)) :=
    mem_le_foldl_max _ 0 _ hlast_mem
  have h2 : ∀ x ∈ rows, x.frame_id ≤ (rows.getLast hne).frame_id := by
    intro x hx
    rcases List.mem_iff_get.mp hx with ⟨i, rfl⟩
    rcases Nat.lt_or_ge i.1 (rows.length - 1) with hlt | hge
    · exact le_of_lt (frameId_lt_getLast rows hne hpw i.1 i.2 hlt)
    · have hfin : i = (⟨rows.length - 1, by omega⟩ : Fin rows.length) :=
        Fin.ext (show i.1 = rows.length - 1 by omega)
      rw [List.getLast_eq_get, hfin]
  have h3 : maxNat (rows.map (·.frame_id)) ≤ (rows.getLast hne).frame_id := by
    rcases foldl_max_mem_or_init (rows.map (·.frame_id)) 0 with h | h
    · show (rows.map (·.frame_id)).foldl max 0 ≤ _
      rw [h]
      exact Nat.zero_le _
    · rcases List.mem_map.mp h with ⟨r, hr, hrf⟩
      show (rows.map (·.frame_id)).foldl max 0 ≤ _
      rw [← hrf]
      exact h2 r hr
  omega

theorem bfill_replicate_none (k : ℕ) (v : ℚ) :
    bfill (List.replicate k none ++ [some v]) = List.replicate (k+1) (some v) := by
  induction k with
  | zero => rfl
  | succ n ih =>
    have : List.replicate (n+1) (none : Option ℚ) ++ [some v] =
        none :: (List.replicate n none ++ [some v]) := by
      simp [List.replicate_succ]
    rw [this]
    show (bfill (List.replicate n none ++ [some v])).headD none ::
      bfill (List.replicate n none ++ [some v]) = _
    rw [ih]
    simp [List.replicate_succ]

/-- Under sorted frame_ids, the marked column is NaN everywhere except the
final row, which carries the projected value of the last frame. -/
theorem markAtThrow_sorted (proj : KinRow → ℚ) (rows : List KinRow)
    (hne : rows ≠ [])
    (hs : List.Chain' (fun p q : KinRow => p.frame_id < q.frame_id) rows) :
    markAtThrow proj rows =
      List.replicate (rows.length - 1) none ++ [some (proj (rows.getLast hne))] := by
  have hpw := chainFrames_pairwise rows hs
  have hmax := maxNat_eq_getLast_of_sorted rows hne hs
  have hlen : 0 < rows.length := List.length_pos.mpr hne
  apply List.ext_getElem
  · simp [markAtThrow]
    omega
  · intro n h1 h2
    have hn : n < rows.length := by simpa [markAtThrow] using h1
    simp only [markAtThrow, List.getElem_map]
    by_cases hlt : n < rows.length - 1
    · have hne2 : rows[n].frame_id < (rows.getLast hne).frame_id := by
        have := frameId_lt_getLast rows hne hpw n hn hlt
        simpa using this
      rw [if_neg (by omega)]
      rw [List.getElem_append]
      rw [dif_pos (by simpa using hlt)]
      simp
    · have hneq : n = rows.length - 1 := by omega
      have hrow : rows[n] = rows.getLast hne := by
        rw [List.getLast_eq_getElem]
        congr 1
      have hfid : rows[n].frame_id = maxNat (rows.map (·.frame_id)) := by
        rw [hmax, hrow]
      rw [if_pos hfid]
      rw [List.getElem_append_right (by simp; omega)]
      simp [hrow]

/-- C4: per (game_id, play_id, player_id) group with frames in ascending
frame_id order, `speed_at_throw` and `accel_at_throw` hold the group's `s`
and `a` at its maximum frame_id, replicated onto every row of the group;
a single-frame group gets its own value, and its `dist_change` is NaN. -/
theorem C4_at_throw_broadcast (rows : List KinRow) (hne : rows ≠ [])
    (hs : List.Chain' (fun p q : KinRow => p.frame_id < q.frame_id) rows) :
    ((rows.getLast hne).frame_id = maxNat (rows.map (·.frame_id))) ∧
    (∀ i, i < rows.length →
      (speedAtThrow rows).get? i = some (some ((rows.getLast hne).s))) ∧
    (∀ i, i < rows.length →
      (accelAtThrow rows).get? i = some (some ((rows.getLast hne).a))) ∧
    (∀ r : KinRow, speedAtThrow [r] = [some r.s]) ∧
    (∀ r : KinRow, accelAtThrow [r] = [some r.a]) ∧
    (∀ q : ℚ, seriesDiff [q] = [none]) := by
  have hmax := maxNat_eq_getLast_of_sorted rows hne hs
  have hrepl : ∀ proj : KinRow → ℚ,
      bfill (markAtThrow proj rows) =
        List.replicate rows.length (some (proj (rows.getLast hne))) := by
    intro proj
    rw [markAtThrow_sorted proj rows hne hs, bfill_replicate_none]
    congr 1
    have : 0 < rows.length := List.length_pos.mpr hne
    omega
  refine ⟨hmax.symm, ?_, ?_, ?_, ?_, ?_⟩
  · intro i hi
    unfold speedAtThrow
    rw [hrepl (·.s)]
    rw [List.get?_eq_getElem?, List.getElem?_eq_getElem (by simpa using hi)]
    simp
  · intro i hi
    unfold accelAtThrow
    rw [hrepl (·.a)]
    rw [List.get?_eq_getElem?, List.getElem?_eq_getElem (by simpa using hi)]
    simp
  · intro r
    simp [speedAtThrow, markAtThrow, maxNat, bfill]
  · intro r
    simp [accelAtThrow, markAtThrow, maxNat, bfill]
  · intro q
    rfl

/-- Witness for C4 on a concrete two-frame group. -/
theorem C4_at_throw_broadcast_witness :
    (speedAtThrow [⟨1, 4, 7⟩, ⟨2, 6, 9⟩]).get? 0 = some (some 6) := by
  have h := C4_at_throw_broadcast [⟨1, 4, 7⟩, ⟨2, 6, 9⟩] (by simp)
    (by simp [List.chain'_cons])
  exact h.2.1 0 (by norm_num)

theorem insertLe_perm {α : Type} (le : α → α → Bool) (a : α) (l : List α) :
    (insertLe le a l).Perm (a :: l) := by
  induction l with
  | nil => exact List.Perm.refl _
  | cons x xs ih =>
    rw [insertLe]
    by_cases hle : le a x = true
    · rw [if_pos hle]
    · rw [if_neg hle]
      exact (List.Perm.cons x ih).trans (List.Perm.swap a x xs)

theorem sortLe_perm {α : Type} (le : α → α → Bool) (l : List α) :
    (sortLe le l).Perm l := by
  induction l with
  | nil => exact List.Perm.refl _
  | cons a xs ih =>
    rw [sortLe]
    exact (insertLe_perm le a (sortLe le xs)).trans (List.Perm.cons a ih)

theorem sortLe_length {α : Type} (le : α → α → Bool) (l : List α) :
    (sortLe le l).length = l.length :=
  (sortLe_perm le l).length_eq

theorem sortLe_mem {α : Type} (le : α → α → Bool) (l : List α) (x : α) :
    x ∈ sortLe le l ↔ x ∈ l :=
  (sortLe_perm le l).mem_iff

theorem uniqueFirst_mem {α : Type} [DecidableEq α] (l : List α) (x : α) :
    x ∈ uniqueFirst l ↔ x ∈ l := by
  induction l with
  | nil => simp [uniqueFirst]
  | cons k ks ih =>
    rw [uniqueFirst]
    constructor
    · intro hx
      rcases List.mem_cons.mp hx with h | h
      · exact h ▸ List.mem_cons_self k ks
      · exact List.mem_cons_of_mem k (ih.mp (List.mem_filter.mp h).1)
    · intro hx
      rcases List.mem_cons.mp hx with h | h
      · exact h ▸ List.mem_cons_self k _
      · by_cases hk : x = k
        · exact hk ▸ List.mem_cons_self k _
        · exact List.mem_cons_of_mem k
            (List.mem_filter.mpr ⟨ih.mpr h, by simpa using hk⟩)

theorem uniqueFirst_nodup {α : Type} [DecidableEq α] (l : List α) :
    (uniqueFirst l).Nodup := by
  induction l with
  | nil => simp [uniqueFirst]
  | cons k ks ih =>
    rw [uniqueFirst]
    refine List.nodup_cons.mpr ⟨?_, ih.filter _⟩
    intro hk
    have := (List.mem_filter.mp hk).2
    simp at this

/-- pandas null-skipping `first` computes exactly the first non-null
value by original row order. -/
theorem isFirstNonNull_colFirst (col : List (Option ℚ)) :
    IsFirstNonNull col ((col.filterMap id).head?) := by
  induction col with
  | nil =>
    exact Or.inl ⟨rfl, by simp⟩
  | cons x t ih =>
    cases x with
    | none =>
      have hfm : (((none : Option ℚ) :: t).filterMap id).head? =
          (t.filterMap id).head? := by
        simp [List.filterMap_cons]
      rw [hfm]
      rcases ih with ⟨hv, hall⟩ | ⟨hne, i, hi, hget, hbefore⟩
      · left
        refine ⟨hv, ?_⟩
        intro y hy
        rcases List.mem_cons.mp hy with h | h
        · exact h
        · exact hall y h
      · right
        refine ⟨hne, i + 1, by simpa using Nat.succ_lt_succ hi, ?_, ?_⟩
        · simpa using hget
        · intro i2 hi2 hlt
          cases i2 with
          | zero => rfl
          | succ m =>
            have hm : m < t.length := by simpa using hi2
            have := hbefore m hm (by omega)
            simpa using this
    | some w =>
      right
      refine ⟨by simp [List.filterMap_cons], 0, by simp, ?_, ?_⟩
      · simp [List.filterMap_cons]
      · intro i2 hi2 hlt
        omega

theorem aggKey_mk (k : ℕ × ℕ × ℕ) (vs : List (Option ℚ)) :
    aggKey ⟨k.1, k.2.1, k.2.2, vs⟩ = k := by
  rcases k with ⟨a, b, c⟩
  rfl

theorem map_aggKey_outRows (ncols : ℕ) (rows : List AggRow)
    (l : List (ℕ × ℕ × ℕ)) :
    (l.map (fun k => (⟨k.1, k.2.1, k.2.2,
      (List.range ncols).map
        (fun j => colFirst (rows.filter (fun r => aggKey r = k)) j)⟩ : AggRow))).map
      aggKey = l := by
  induction l with
  | nil => rfl
  | cons k t ih =>
    simp only [List.map_cons]
    rw [ih, aggKey_mk]

/-- C9 (amended): the play-level aggregator emits exactly one row per
distinct (game_id, play_id, nfl_id) triple of the input — its row count
is the number of distinct triples, its key column is duplicate-free and
covers exactly the input's triples — and each retained column of an
output row holds that column's first NON-NULL value by original row
order within the row's group (NaN when the column is null throughout),
as pandas null-skipping `first` aggregation computes it. -/
theorem C9_play_level_aggregation (ncols : ℕ) (rows : List AggRow) :
    ((create_play_level_dataset ncols rows).length =
      (rows.map aggKey).dedup.length) ∧
    (((create_play_level_dataset ncols rows).map aggKey).Nodup) ∧
    (∀ k, k ∈ (create_play_level_dataset ncols rows).map aggKey ↔
      k ∈ rows.map aggKey) ∧
    (∀ r ∈ create_play_level_dataset ncols rows, ∀ j, j < ncols →
      ∃ v, r.vals.get? j = some v ∧
        IsFirstNonNull ((rows.filter (fun q => aggKey q = aggKey r)).map
          (fun q => q.vals.getD j none)) v) := by
  set ks := sortLe keyLe (uniqueFirst (rows.map aggKey)) with hks
  have hmem_ks : ∀ k, k ∈ ks ↔ k ∈ rows.map aggKey := by
    intro k
    rw [hks, sortLe_mem, uniqueFirst_mem]
  have hmapkeys : (create_play_level_dataset ncols rows).map aggKey = ks := by
    unfold create_play_level_dataset
    rw [← hks]
    exact map_aggKey_outRows ncols rows ks
  have hnodup_ks : ks.Nodup := by
    rw [hks]
    exact ((sortLe_perm keyLe _).nodup_iff).mpr (uniqueFirst_nodup _)
  refine ⟨?_, ?_, ?_, ?_⟩
  · have hlen1 : (create_play_level_dataset ncols rows).length = ks.length := by
      have := congrArg List.length hmapkeys
      simpa using this
    rw [hlen1, hks, sortLe_length]
    have hperm : (uniqueFirst (rows.map aggKey)).Perm (rows.map aggKey).dedup := by
      rw [List.perm_ext_iff_of_nodup (uniqueFirst_nodup _) (List.nodup_dedup _)]
      intro a
      rw [uniqueFirst_mem, List.mem_dedup]
    exact hperm.length_eq
  · rw [hmapkeys]
    exact hnodup_ks
  · intro k
    rw [hmapkeys]
    exact hmem_ks k
  · intro r hr j hj
    unfold create_play_level_dataset at hr
    rw [← hks] at hr
    rcases List.mem_map.mp hr with ⟨k, hk, hkr⟩
    subst hkr
    refine ⟨colFirst (rows.filter (fun q => aggKey q = k)) j, ?_, ?_⟩
    · show ((List.range ncols).map
        (fun j => colFirst (rows.filter (fun q => aggKey q = k)) j)).get? j = _
      rw [List.get?_map, List.get?_range hj]
      rfl
    · rw [aggKey_mk]
      exact isFirstNonNull_colFirst _

/-- C9 counterexample: on a single group whose retained column reads
[NaN, 7] in row order, the aggregator (pandas null-skipping `first`)
emits 7, while the group's first value by original row order is NaN —
so "each retained column's value is the first value by original row
order within the group" fails on NaN-able retained columns. -/
theorem C9_counterexample_nan_first :
    (create_play_level_dataset 1
      [⟨1, 1, 1, [none]⟩, ⟨1, 1, 1, [some 7]⟩]).map (·.vals) = [[some (7:ℚ)]] ∧
    (([⟨1, 1, 1, [none]⟩, ⟨1, 1, 1, [some 7]⟩] : List AggRow).map (·.vals)).head? =
      some [none] := by
  constructor
  · decide
  · decide

theorem maxByDispAux_spec (c : Candidate) (cs : List Candidate) :
    (maxByDispAux c cs = c ∨ maxByDispAux c cs ∈ cs) ∧
    c.displacement_sq ≤ (maxByDispAux c cs).displacement_sq ∧
    ∀ d ∈ cs, d.displacement_sq ≤ (maxByDispAux c cs).displacement_sq := by
  induction cs generalizing c with
  | nil => simp [maxByDispAux]
  | cons d ds ih =>
    rw [maxByDispAux]
    by_cases hcd : c.displacement_sq < d.displacement_sq
    · rw [if_pos hcd]
      rcases ih d with ⟨h1, h2, h3⟩
      refine ⟨?_, by linarith, ?_⟩
      · right
        rcases h1 with h | h
        · rw [h]
          exact List.mem_cons_self d ds
        · exact List.mem_cons_of_mem d h
      · intro e he
        rcases List.mem_cons.mp he with h | h
        · exact h ▸ h2
        · exact h3 e h
    · rw [if_neg hcd]
      rcases ih c with ⟨h1, h2, h3⟩
      push_neg at hcd
      refine ⟨?_, h2, ?_⟩
      · rcases h1 with h | h
        · exact Or.inl h
        · exact Or.inr (List.mem_cons_of_mem d h)
      · intro e he
        rcases List.mem_cons.mp he with h | h
        · subst h
          linarith
        · exact h3 e h

theorem minByDistAux_spec (c : DefDist) (cs : List DefDist) :
    (minByDistAux c cs = c ∨ minByDistAux c cs ∈ cs) ∧
    (minByDistAux c cs).dist_sq ≤ c.dist_sq ∧
    ∀ d ∈ cs, (minByDistAux c cs).dist_sq ≤ d.dist_sq := by
  induction cs generalizing c with
  | nil => simp [minByDistAux]
  | cons d ds ih =>
    rw [minByDistAux]
    by_cases hcd : d.dist_sq < c.dist_sq
    · rw [if_pos hcd]
      rcases ih d with ⟨h1, h2, h3⟩
      refine ⟨?_, by linarith, ?_⟩
      · right
        rcases h1 with h | h
        · rw [h]
          exact List.mem_cons_self d ds
        · exact List.mem_cons_of_mem d h
      · intro e he
        rcases List.mem_cons.mp he with h | h
        · exact h ▸ h2
        · exact h3 e h
    · rw [if_neg hcd]
      rcases ih c with ⟨h1, h2, h3⟩
      push_neg at hcd
      refine ⟨?_, h2, ?_⟩
      · rcases h1 with h | h
        · exact Or.inl h
        · exact Or.inr (List.mem_cons_of_mem d h)
      · intro e he
        rcases List.mem_cons.mp he with h | h
        · subst h
          linarith
        · exact h3 e h

/-- The selected target is a candidate of maximal displacement. -/
theorem targetOf_spec (off : List TrackRow) (t : Candidate)
    (h : targetOf off = some t) :
    t ∈ playerDisplacements off ∧
    ∀ c ∈ playerDisplacements off, c.displacement_sq ≤ t.displacement_sq := by
  unfold targetOf at h
  cases hpd : playerDisplacements off with
  | nil => rw [hpd] at h; simp at h
  | cons c cs =>
    rw [hpd] at h
    have ht : maxByDispAux c cs = t := by simpa using h
    rcases maxByDispAux_spec c cs with ⟨h1, h2, h3⟩
    rw [ht] at h1 h2 h3
    constructor
    · rcases h1 with hh | hh
      · exact hh ▸ List.mem_cons_self c cs
      · exact List.mem_cons_of_mem c hh
    · intro e he
      rcases List.mem_cons.mp he with hh | hh
      · exact hh ▸ h2
      · exact h3 e hh

/-- The selected nearest defender is a listed defender of minimal
(squared) distance. -/
theorem nearestDefender_spec (l : List DefDist) (n : DefDist)
    (h : nearestDefender l = some n) :
    n ∈ l ∧ ∀ d ∈ l, n.dist_sq ≤ d.dist_sq := by
  unfold nearestDefender at h
  cases hl : l with
  | nil => rw [hl] at h; simp at h
  | cons c cs =>
    rw [hl] at h
    have hn : minByDistAux c cs = n := by simpa using h
    rcases minByDistAux_spec c cs with ⟨h1, h2, h3⟩
    rw [hn] at h1 h2 h3
    constructor
    · rcases h1 with hh | hh
      · exact hh ▸ List.mem_cons_self c cs
      · exact List.mem_cons_of_mem c hh
    · intro e he
      rcases List.mem_cons.mp he with hh | hh
      · exact hh ▸ h2
      · exact h3 e hh

/-- What a produced candidate records about its player. -/
theorem mkCandidate_some (off : List TrackRow) (id : ℕ) (c : Candidate)
    (h : mkCandidate off id = some c) :
    c.nfl_id = id ∧ c.displacement_sq = playerDispSq off id ∧
    isEligible off id = true ∧
    playerPositionOf off id = some c.position ∧
    2 ≤ (playerFramesSorted off id).length := by
  unfold mkCandidate at h
  split at h
  · simp at h
  · next hlen =>
    split at h
    · next fr la hhead hlast =>
      split at h
      · next hpos =>
        have hc : c = ⟨id, dist2 fr.x fr.y la.x la.y, fr.player_position,
            fr.player_name⟩ := (Option.some.inj h).symm
        subst hc
        refine ⟨rfl, ?_, ?_, ?_, by omega⟩
        · unfold playerDispSq
          rw [hhead, hlast]
        · unfold isEligible playerPositionOf
          rw [hhead]
          simpa using hpos
        · unfold playerPositionOf
          rw [hhead]
          rfl
      · simp at h
    · simp at h

theorem playerDispSq_nonneg (off : List TrackRow) (id : ℕ) :
    0 ≤ playerDispSq off id := by
  unfold playerDispSq
  split
  · exact dist2_nonneg _ _ _ _
  · exact le_refl 0

theorem dist2_self (x y : ℚ) : dist2 x y x y = 0 := by
  unfold dist2
  ring

/-- A player with fewer than two frames has displacement 0 (its first and
last sorted frames coincide or are absent). -/
theorem playerDispSq_of_short (off : List TrackRow) (id : ℕ)
    (h : (playerFramesSorted off id).length < 2) :
    playerDispSq off id = 0 := by
  unfold playerDispSq
  cases hpf : playerFramesSorted off id with
  | nil => rfl
  | cons a t =>
    cases t with
    | nil =>
      simpa using dist2_self a.x a.y
    | cons b u =>
      rw [hpf] at h
      simp at h
      omega

/-- An eligible player with at least two frames yields a candidate. -/
theorem mkCandidate_isSome_of (off : List TrackRow) (id : ℕ)
    (hel : isEligible off id = true)
    (hlen : 2 ≤ (playerFramesSorted off id).length) :
    ∃ c, mkCandidate off id = some c := by
  unfold mkCandidate
  rw [if_neg (by omega)]
  cases hpf : playerFramesSorted off id with
  | nil =>
    rw [hpf] at hlen
    simp at hlen
  | cons fr t =>
    have hlast : (fr :: t).getLast? = some ((fr :: t).getLast (by simp)) :=
      List.getLast?_eq_getLast _ _
    have hpos : fr.player_position ∈ receiverPositions := by
      unfold isEligible playerPositionOf at hel
      rw [hpf] at hel
      simpa using hel
    simp only [List.head?_cons, hlast]
    rw [if_pos hpos]
    exact ⟨_, rfl⟩

/-- Unpacking a successful per-play computation into its stages. -/
theorem processPlay_eq_some (tracking : List TrackRow) (g p : ℕ) (route : String)
    (rec : SepRecord) (h : processPlay tracking g p route = some rec) :
    ∃ target recv nearest,
      targetOf (offensivePlayers (playData tracking g p)) = some target ∧
      receiverThrow (playData tracking g p) target.nfl_id = some recv ∧
      nearestDefender (defenderDists (defendersThrow (playData tracking g p))
        recv.x recv.y) = some nearest ∧
      rec = ⟨g, p, route, target.nfl_id, target.name, target.position,
        recv.x, recv.y, nearest.row.nfl_id, nearest.row.player_name,
        nearest.row.player_position, nearest.dist_sq,
        cushionOf (playData tracking g p) target.nfl_id,
        (cushionOf (playData tracking g p) target.nfl_id).isNone,
        ((defenderDists (defendersThrow (playData tracking g p)) recv.x recv.y).filter
          (fun d => d.dist_sq ≤ 9)).length,
        ((defenderDists (defendersThrow (playData tracking g p)) recv.x recv.y).filter
          (fun d => d.dist_sq ≤ 25)).length,
        throwFrameId (playData tracking g p)⟩ := by
  unfold processPlay at h
  split at h
  · simp at h
  · split at h
    · simp at h
    · split at h
      · simp at h
      · rename_i target htarget
        split at h
        · simp at h
        · rename_i recv hrecv
          split at h
          · simp at h
          · rename_i nearest hnear
            exact ⟨target, recv, nearest, htarget, hrecv, hnear,
              (Option.some.inj h).symm⟩

theorem playerFramesSorted_length (off : List TrackRow) (id : ℕ) :
    (playerFramesSorted off id).length =
      (off.filter (fun r => r.nfl_id = id)).length := by
  unfold playerFramesSorted
  exact sortLe_length _ _

/-- An eligible player occurs among the offensive rows. -/
theorem isEligible_mem (off : List TrackRow) (id : ℕ)
    (h : isEligible off id = true) : id ∈ off.map (·.nfl_id) := by
  unfold isEligible playerPositionOf at h
  cases hpf : (playerFramesSorted off id).head? with
  | none =>
    rw [hpf] at h
    simp at h
  | some fr =>
    have hmem : fr ∈ playerFramesSorted off id :=
      List.mem_of_mem_head? (by rw [hpf]; rfl)
    have hmem2 : fr ∈ off.filter (fun r => r.nfl_id = id) := by
      unfold playerFramesSorted at hmem
      exact (sortLe_mem _ _ fr).mp hmem
    have h1 := List.mem_filter.mp hmem2
    exact List.mem_map.mpr ⟨fr, h1.1, by simpa using h1.2⟩

/-- C1: a play's emitted record names a receiver-eligible offensive
player (position in the WR/TE/RB/FB allow-list) whose first-to-last
straight-line displacement is maximal among all receiver-eligible
offensive players of the play — also through the Euclidean (square-root)
displacement. -/
theorem C1_receiver_selection (tracking : List TrackRow) (g p : ℕ)
    (route : String) (rec : SepRecord)
    (h : processPlay tracking g p route = some rec) :
    isEligible (offensivePlayers (playData tracking g p)) rec.receiver_nfl_id = true ∧
    rec.receiver_position ∈ receiverPositions ∧
    playerPositionOf (offensivePlayers (playData tracking g p)) rec.receiver_nfl_id =
      some rec.receiver_position ∧
    (∀ id, isEligible (offensivePlayers (playData tracking g p)) id = true →
      playerDispSq (offensivePlayers (playData tracking g p)) id ≤
        playerDispSq (offensivePlayers (playData tracking g p)) rec.receiver_nfl_id) ∧
    (∀ id, isEligible (offensivePlayers (playData tracking g p)) id = true →
      Real.sqrt ((playerDispSq (offensivePlayers (playData tracking g p)) id : ℝ)) ≤
        Real.sqrt ((playerDispSq (offensivePlayers (playData tracking g p))
          rec.receiver_nfl_id : ℝ))) := by
  rcases processPlay_eq_some tracking g p route rec h with
    ⟨target, recv, nearest, htarget, hrecv, hnear, hrec⟩
  rcases targetOf_spec (offensivePlayers (playData tracking g p)) target htarget with
    ⟨hmem, hmax⟩
  rcases List.mem_filterMap.mp hmem with ⟨idt, hidt, hmk⟩
  rcases mkCandidate_some _ idt target hmk with ⟨hid, hdisp, helig, hposOf, hlen2⟩
  have hrecid : rec.receiver_nfl_id = target.nfl_id := by rw [hrec]
  have hrecpos : rec.receiver_position = target.position := by rw [hrec]
  have hdisp2 : target.displacement_sq =
      playerDispSq (offensivePlayers (playData tracking g p)) target.nfl_id := by
    rw [hid, hdisp]
  have hkey : ∀ id, isEligible (offensivePlayers (playData tracking g p)) id = true →
      playerDispSq (offensivePlayers (playData tracking g p)) id ≤
        playerDispSq (offensivePlayers (playData tracking g p)) rec.receiver_nfl_id := by
    intro id hel
    rw [hrecid, ← hdisp2]
    by_cases hl : 2 ≤ (playerFramesSorted (offensivePlayers (playData tracking g p)) id).length
    · rcases mkCandidate_isSome_of _ id hel hl with ⟨c, hc⟩
      have hcmem : c ∈ playerDisplacements (offensivePlayers (playData tracking g p)) :=
        List.mem_filterMap.mpr ⟨id,
          (uniqueFirst_mem _ id).mpr (isEligible_mem _ id hel), hc⟩
      rcases mkCandidate_some _ id c hc with ⟨hcid, hcdisp, _, _, _⟩
      have hle := hmax c hcmem
      rw [hcdisp] at hle
      exact hle
    · push_neg at hl
      rw [playerDispSq_of_short _ id hl]
      calc (0:ℚ) ≤ playerDispSq (offensivePlayers (playData tracking g p)) target.nfl_id :=
            playerDispSq_nonneg _ _
        _ ≤ target.displacement_sq := by rw [hdisp2]
  refine ⟨?_, ?_, ?_, hkey, ?_⟩
  · rw [hrecid, hid]
    exact helig
  · rw [hrecpos]
    unfold isEligible at helig
    rw [hposOf] at helig
    simpa using helig
  · rw [hrecid, hid, hrecpos]
    exact hposOf
  · intro id hel
    have := hkey id hel
    exact Real.sqrt_le_sqrt (by exact_mod_cast this)

theorem defenderDists_filter_length (defs : List TrackRow) (rx ry t : ℚ) :
    ((defenderDists defs rx ry).filter (fun d => d.dist_sq ≤ t)).length =
      (defs.filter (fun d => dist2 rx ry d.x d.y ≤ t)).length := by
  unfold defenderDists
  rw [List.filter_map]
  rw [List.length_map]
  rfl

/-- C2: the record's separation at throw is the minimum over the play's
defenders at the throw frame of the (squared, hence also Euclidean)
distance to the receiver's throw position, and the within-3/within-5
counts are the counts of defenders at Euclidean distance at most 3 and
at most 5 (equivalently squared distance at most 9 and at most 25). -/
theorem C2_separation_at_throw (tracking : List TrackRow) (g p : ℕ)
    (route : String) (rec : SepRecord)
    (h : processPlay tracking g p route = some rec) :
    (∃ d ∈ defendersThrow (playData tracking g p),
      rec.nearest_defender_id = d.nfl_id ∧
      rec.separation_at_throw_sq = dist2 rec.receiver_x rec.receiver_y d.x d.y) ∧
    (∀ d ∈ defendersThrow (playData tracking g p),
      rec.separation_at_throw_sq ≤ dist2 rec.receiver_x rec.receiver_y d.x d.y) ∧
    (∀ d ∈ defendersThrow (playData tracking g p),
      Real.sqrt ((rec.separation_at_throw_sq : ℝ)) ≤
        Real.sqrt ((dist2 rec.receiver_x rec.receiver_y d.x d.y : ℝ))) ∧
    rec.defenders_within_3yd = ((defendersThrow (playData tracking g p)).filter
      (fun d => dist2 rec.receiver_x rec.receiver_y d.x d.y ≤ 9)).length ∧
    rec.defenders_within_5yd = ((defendersThrow (playData tracking g p)).filter
      (fun d => dist2 rec.receiver_x rec.receiver_y d.x d.y ≤ 25)).length ∧
    (∀ q : ℚ, (Real.sqrt ((q : ℝ)) ≤ 3 ↔ q ≤ 9) ∧
      (Real.sqrt ((q : ℝ)) ≤ 5 ↔ q ≤ 25)) := by
  rcases processPlay_eq_some tracking g p route rec h with
    ⟨target, recv, nearest, htarget, hrecv, hnear, hrec⟩
  rcases nearestDefender_spec _ nearest hnear with ⟨hnmem, hnmin⟩
  have hrx : rec.receiver_x = recv.x := by rw [hrec]
  have hry : rec.receiver_y = recv.y := by rw [hrec]
  have hsep : rec.separation_at_throw_sq = nearest.dist_sq := by rw [hrec]
  refine ⟨?_, ?_, ?_, ?_, ?_, ?_⟩
  · rcases List.mem_map.mp hnmem with ⟨d, hd, hdef⟩
    refine ⟨d, hd, ?_, ?_⟩
    · rw [hrec, ← hdef]
    · rw [hsep, ← hdef, hrx, hry]
  · intro d hd
    have : (⟨d, dist2 recv.x recv.y d.x d.y⟩ : DefDist) ∈
        defenderDists (defendersThrow (playData tracking g p)) recv.x recv.y :=
      List.mem_map_of_mem _ hd
    have hle := hnmin _ this
    rw [hsep, hrx, hry]
    exact hle
  · intro d hd
    have : (⟨d, dist2 recv.x recv.y d.x d.y⟩ : DefDist) ∈
        defenderDists (defendersThrow (playData tracking g p)) recv.x recv.y :=
      List.mem_map_of_mem _ hd
    have hle := hnmin _ this
    apply Real.sqrt_le_sqrt
    rw [hsep, hrx, hry]
    exact_mod_cast hle
  · rw [hrx, hry, hrec]
    show ((defenderDists (defendersThrow (playData tracking g p)) recv.x recv.y).filter
      (fun d => d.dist_sq ≤ 9)).length = _
    exact defenderDists_filter_length (defendersThrow (playData tracking g p))
      recv.x recv.y 9
  · rw [hrx, hry, hrec]
    show ((defenderDists (defendersThrow (playData tracking g p)) recv.x recv.y).filter
      (fun d => d.dist_sq ≤ 25)).length = _
    exact defenderDists_filter_length (defendersThrow (playData tracking g p))
      recv.x recv.y 25
  · intro q
    constructor
    · rw [show (3:ℝ) = Real.sqrt 9 by
        rw [show (9:ℝ) = 3^2 by norm_num, Real.sqrt_sq (by norm_num)]]
      rw [Real.sqrt_le_sqrt_iff (by norm_num)]
      exact_mod_cast Iff.rfl
    · rw [show (5:ℝ) = Real.sqrt 25 by
        rw [show (25:ℝ) = 5^2 by norm_num, Real.sqrt_sq (by norm_num)]]
      rw [Real.sqrt_le_sqrt_iff (by norm_num)]
      exact_mod_cast Iff.rfl

theorem targetOf_off_ne_nil (off : List TrackRow) (t : Candidate)
    (h : targetOf off = some t) : off ≠ [] := by
  intro hnil
  subst hnil
  exact Option.noConfusion h

/-- When every stage guard passes, the loop body appends one record. -/
theorem processPlay_intro (tracking : List TrackRow) (g p : ℕ) (route : String)
    (target : Candidate) (recv : TrackRow) (nearest : DefDist)
    (htarget : targetOf (offensivePlayers (playData tracking g p)) = some target)
    (hrecv : receiverThrow (playData tracking g p) target.nfl_id = some recv)
    (hnear : nearestDefender (defenderDists (defendersThrow (playData tracking g p))
      recv.x recv.y) = some nearest) :
    processPlay tracking g p route =
      some ⟨g, p, route, target.nfl_id, target.name, target.position,
        recv.x, recv.y, nearest.row.nfl_id, nearest.row.player_name,
        nearest.row.player_position, nearest.dist_sq,
        cushionOf (playData tracking g p) target.nfl_id,
        (cushionOf (playData tracking g p) target.nfl_id).isNone,
        ((defenderDists (defendersThrow (playData tracking g p)) recv.x recv.y).filter
          (fun d => d.dist_sq ≤ 9)).length,
        ((defenderDists (defendersThrow (playData tracking g p)) recv.x recv.y).filter
          (fun d => d.dist_sq ≤ 25)).length,
        throwFrameId (playData tracking g p)⟩ := by
  have hoff : offensivePlayers (playData tracking g p) ≠ [] :=
    targetOf_off_ne_nil _ target htarget
  have hpd : playData tracking g p ≠ [] := by
    intro hnil
    apply hoff
    unfold offensivePlayers
    rw [hnil]
    rfl
  unfold processPlay
  rw [if_neg hpd, if_neg hoff]
  simp only [htarget, hrecv, hnear]

/-- Both snap-failure branches set the cushion (and hence the change) to
NaN. -/
theorem cushionOf_none (pd : List TrackRow) (id : ℕ)
    (h : receiverSnap pd id = none ∨ defendersSnap pd = []) :
    cushionOf pd id = none := by
  unfold cushionOf
  rcases h with h | h
  · rw [h]
  · cases hr : receiverSnap pd id with
    | none => rfl
    | some rs =>
      rw [h]
      rfl

theorem nearestDefender_isSome (l : List DefDist) (h : l ≠ []) :
    ∃ n, nearestDefender l = some n := by
  cases l with
  | nil => exact absurd rfl h
  | cons c cs => exact ⟨_, rfl⟩

/-- C6: on a targeted play whose receiver and defenders exist at the
throw frame but whose receiver is absent at the snap frame (or that has
no defender at the snap frame), a record is still emitted, its
coverage cushion and separation change are NaN, and its throw-side
quantities are still computed. -/
theorem C6_snap_absent_nan (tracking : List TrackRow) (g p : ℕ) (route : String)
    (target : Candidate) (recv : TrackRow)
    (htarget : targetOf (offensivePlayers (playData tracking g p)) = some target)
    (hrecv : receiverThrow (playData tracking g p) target.nfl_id = some recv)
    (hdef : defendersThrow (playData tracking g p) ≠ [])
    (hsnap : receiverSnap (playData tracking g p) target.nfl_id = none ∨
             defendersSnap (playData tracking g p) = []) :
    ∃ rec, processPlay tracking g p route = some rec ∧
      rec.coverage_cushion_sq = none ∧
      rec.separation_change_isNaN = true ∧
      rec.receiver_nfl_id = target.nfl_id ∧
      rec.receiver_x = recv.x ∧ rec.receiver_y = recv.y ∧
      (∃ n, nearestDefender (defenderDists (defendersThrow (playData tracking g p))
          recv.x recv.y) = some n ∧ rec.separation_at_throw_sq = n.dist_sq) ∧
      rec.defenders_within_3yd = ((defendersThrow (playData tracking g p)).filter
        (fun d => dist2 recv.x recv.y d.x d.y ≤ 9)).length ∧
      rec.defenders_within_5yd = ((defendersThrow (playData tracking g p)).filter
        (fun d => dist2 recv.x recv.y d.x d.y ≤ 25)).length := by
  have hddne : defenderDists (defendersThrow (playData tracking g p)) recv.x recv.y ≠ [] := by
    unfold defenderDists
    simpa using hdef
  rcases nearestDefender_isSome _ hddne with ⟨nearest, hnear⟩
  have hcn : cushionOf (playData tracking g p) target.nfl_id = none :=
    cushionOf_none _ _ hsnap
  refine ⟨_, processPlay_intro tracking g p route target recv nearest htarget hrecv hnear,
    ?_, ?_, rfl, rfl, rfl, ⟨nearest, hnear, rfl⟩, ?_, ?_⟩
  · exact hcn
  · show (cushionOf (playData tracking g p) target.nfl_id).isNone = true
    rw [hcn]
    rfl
  · exact defenderDists_filter_length (defendersThrow (playData tracking g p))
      recv.x recv.y 9
  · exact defenderDists_filter_length (defendersThrow (playData tracking g p))
      recv.x recv.y 25

/-- C7: a targeted play with no frames, no offensive player, no eligible
candidate, no receiver row at the throw frame, or no defender at the
throw frame produces no record (the loop body is a total function and
just skips), and removing such a play's supplementary row leaves the
output over the remaining plays unchanged. -/
theorem C7_silent_skip (tracking : List TrackRow) (g p : ℕ) (route : String)
    (h : playData tracking g p = [] ∨
         offensivePlayers (playData tracking g p) = [] ∨
         playerDisplacements (offensivePlayers (playData tracking g p)) = [] ∨
         (∀ t, targetOf (offensivePlayers (playData tracking g p)) = some t →
            receiverThrow (playData tracking g p) t.nfl_id = none) ∨
         defendersThrow (playData tracking g p) = []) :
    processPlay tracking g p route = none ∧
    (∀ (s1 s2 : List SuppRow) (r : SuppRow), r.game_id = g → r.play_id = p →
      find_nearest_defender tracking (s1 ++ r :: s2) =
        find_nearest_defender tracking (s1 ++ s2)) := by
  have hroute : ∀ rt, processPlay tracking g p rt = none := by
    intro rt
    cases hps : processPlay tracking g p rt with
    | none => rfl
    | some rec =>
      exfalso
      rcases processPlay_eq_some tracking g p rt rec hps with
        ⟨t, recv, nearest, ht, hrcv, hnr, hrec⟩
      rcases h with h | h | h | h | h
      · refine (targetOf_off_ne_nil _ t ht) ?_
        unfold offensivePlayers
        rw [h]
        rfl
      · exact (targetOf_off_ne_nil _ t ht) h
      · unfold targetOf at ht
        rw [h] at ht
        exact Option.noConfusion ht
      · have hn := h t ht
        rw [hn] at hrcv
        exact Option.noConfusion hrcv
      · rw [h] at hnr
        exact Option.noConfusion hnr
  refine ⟨hroute route, ?_⟩
  intro s1 s2 r hg hp
  unfold find_nearest_defender
  rw [List.filter_append, List.filter_append, List.filter_cons]
  by_cases htr : isTargeted r = true
  · rw [if_pos htr]
    rw [List.filterMap_append, List.filterMap_append, List.filterMap_cons]
    have hz : processPlay tracking r.game_id r.play_id
        (r.route_of_targeted_receiver.getD "") = none := by
      rw [hg, hp]
      exact hroute _
    rw [hz]
  · rw [if_neg htr]

/-- An emitted record carries the (game_id, play_id) of the
supplementary row it came from. -/
theorem processPlay_key (tracking : List TrackRow) (g p : ℕ) (route : String)
    (rec : SepRecord) (h : processPlay tracking g p route = some rec) :
    rec.game_id = g ∧ rec.play_id = p := by
  rcases processPlay_eq_some tracking g p route rec h with
    ⟨t, recv, nearest, _, _, _, hrec⟩
  rw [hrec]
  exact ⟨rfl, rfl⟩

theorem nodup_map_filterMap {α β γ : Type} (f : α → Option β)
    (ka : α → γ) (kb : β → γ) (l : List α)
    (hpres : ∀ a b, f a = some b → kb b = ka a)
    (h : (l.map ka).Nodup) : ((l.filterMap f).map kb).Nodup := by
  induction l with
  | nil => simp
  | cons a tl ih =>
    rw [List.map_cons] at h
    rcases List.nodup_cons.mp h with ⟨hnotin, htail⟩
    rw [List.filterMap_cons]
    cases hf : f a with
    | none => exact ih htail
    | some b =>
      rw [List.map_cons]
      refine List.nodup_cons.mpr ⟨?_, ih htail⟩
      intro hmem
      rcases List.mem_map.mp hmem with ⟨b2, hb2, hkb⟩
      rcases List.mem_filterMap.mp hb2 with ⟨a2, ha2, hfa2⟩
      have h1 := hpres a b hf
      have h2 := hpres a2 b2 hfa2
      have hka : ka a2 = ka a := by rw [← h2, hkb, h1]
      exact hnotin (hka ▸ List.mem_map_of_mem ka ha2)

/-- C5 (amended): when the targeted rows of the supplementary table have
pairwise distinct (game_id, play_id) keys — as the data model's
"keyed by (game_id, play_id)" invariant provides — the separation finder
emits at most one record per (game_id, play_id). -/
theorem C5_at_most_one_record (tracking : List TrackRow) (supp : List SuppRow)
    (h : ((supp.filter isTargeted).map (fun r => (r.game_id, r.play_id))).Nodup) :
    (recordKeys (find_nearest_defender tracking supp)).Nodup := by
  unfold recordKeys find_nearest_defender
  refine nodup_map_filterMap _ _ _ _ ?_ h
  intro r rec hr
  rcases processPlay_key tracking r.game_id r.play_id _ rec hr with ⟨h1, h2⟩
  rw [h1, h2]

theorem wT1_target :
    targetOf (offensivePlayers (playData wT1 1 1)) = some ⟨10, 25, "WR", "A"⟩ := by
  norm_num +decide [playData, wT1, offensivePlayers, targetOf, playerDisplacements,
    uniqueFirst, mkCandidate, playerFramesSorted, sortLe, insertLe, receiverPositions,
    dist2, maxByDispAux, List.filterMap_cons, List.getLast?]

theorem wT1_recv :
    receiverThrow (playData wT1 1 1) 10 =
      some ⟨1, 1, 10, 2, 5, 0, "Offense", "WR", "A"⟩ := by
  norm_num +decide [playData, wT1, receiverThrow, throwFrame, throwFrameId, maxNat]

theorem wT1_near :
    nearestDefender (defenderDists (defendersThrow (playData wT1 1 1)) 5 0) =
      some ⟨⟨1, 1, 20, 2, 8, 0, "Defense", "CB", "C"⟩, 9⟩ := by
  norm_num +decide [playData, wT1, defendersThrow, throwFrame, throwFrameId, maxNat,
    defenderDists, dist2, nearestDefender, minByDistAux]

/-- C5 counterexample: with a duplicated targeted play in the
supplementary table, the code emits two records for the same
(game_id, play_id), so the claim's "at most one separation record per
(game_id, play_id) for every supplementary-table input" fails. -/
theorem C5_counterexample_duplicate_supp :
    ¬ (recordKeys (find_nearest_defender wT1 wSuppDup)).Nodup := by
  have hp := processPlay_intro wT1 1 1 "GO" ⟨10, 25, "WR", "A"⟩
    ⟨1, 1, 10, 2, 5, 0, "Offense", "WR", "A"⟩
    ⟨⟨1, 1, 20, 2, 8, 0, "Defense", "CB", "C"⟩, 9⟩ wT1_target wT1_recv wT1_near
  have he : recordKeys (find_nearest_defender wT1 wSuppDup) = [(1, 1), (1, 1)] := by
    unfold find_nearest_defender wSuppDup recordKeys
    norm_num +decide [isTargeted, List.filterMap_cons, hp]
  rw [he]
  simp

/-- Witness for C5 (amended) on a duplicate-free supplementary table. -/
theorem C5_at_most_one_record_witness :
    (recordKeys (find_nearest_defender wT1 [⟨1, 1, some "GO"⟩])).Nodup :=
  C5_at_most_one_record wT1 [⟨1, 1, some "GO"⟩] (by decide)

/-- Witness for C1 on the three-row play: the selected receiver is
eligible. -/
theorem C1_receiver_selection_witness :
    ∃ rec, processPlay wT1 1 1 "GO" = some rec ∧
      isEligible (offensivePlayers (playData wT1 1 1)) rec.receiver_nfl_id = true := by
  have hp := processPlay_intro wT1 1 1 "GO" ⟨10, 25, "WR", "A"⟩
    ⟨1, 1, 10, 2, 5, 0, "Offense", "WR", "A"⟩
    ⟨⟨1, 1, 20, 2, 8, 0, "Defense", "CB", "C"⟩, 9⟩ wT1_target wT1_recv wT1_near
  exact ⟨_, hp, (C1_receiver_selection wT1 1 1 "GO" _ hp).1⟩

/-- Witness for C2 on the three-row play. -/
theorem C2_separation_at_throw_witness :
    ∃ rec, processPlay wT1 1 1 "GO" = some rec ∧
      ∃ d ∈ defendersThrow (playData wT1 1 1),
        rec.nearest_defender_id = d.nfl_id ∧
        rec.separation_at_throw_sq = dist2 rec.receiver_x rec.receiver_y d.x d.y := by
  have hp := processPlay_intro wT1 1 1 "GO" ⟨10, 25, "WR", "A"⟩
    ⟨1, 1, 10, 2, 5, 0, "Offense", "WR", "A"⟩
    ⟨⟨1, 1, 20, 2, 8, 0, "Defense", "CB", "C"⟩, 9⟩ wT1_target wT1_recv wT1_near
  exact ⟨_, hp, (C2_separation_at_throw wT1 1 1 "GO" _ hp).1⟩

/-- Witness for C6 on the play whose receiver misses the snap frame. -/
theorem C6_snap_absent_nan_witness :
    ∃ rec, processPlay wT3 1 3 "GO" = some rec ∧
      rec.coverage_cushion_sq = none ∧ rec.separation_change_isNaN = true := by
  have htarget : targetOf (offensivePlayers (playData wT3 1 3)) =
      some ⟨50, 25, "WR", "F"⟩ := by
    norm_num +decide [playData, wT3, offensivePlayers, targetOf, playerDisplacements,
      uniqueFirst, mkCandidate, playerFramesSorted, sortLe, insertLe, receiverPositions,
      dist2, maxByDispAux, List.filterMap_cons, List.getLast?]
  have hrecv : receiverThrow (playData wT3 1 3) 50 =
      some ⟨1, 3, 50, 3, 5, 0, "Offense", "WR", "F"⟩ := by
    norm_num +decide [playData, wT3, receiverThrow, throwFrame, throwFrameId, maxNat]
  have hdef : defendersThrow (playData wT3 1 3) ≠ [] := by
    norm_num +decide [playData, wT3, defendersThrow, throwFrame, throwFrameId, maxNat]
  have hsnap : receiverSnap (playData wT3 1 3) 50 = none := by
    norm_num +decide [playData, wT3, receiverSnap, snapFrame, snapFrameId, minNat]
  rcases C6_snap_absent_nan wT3 1 3 "GO" ⟨50, 25, "WR", "F"⟩ _ htarget hrecv hdef
    (Or.inl hsnap) with ⟨rec, h1, h2, h3, _⟩
  exact ⟨rec, h1, h2, h3⟩

/-- Witness for C7: a targeted play with no tracking frames at all is
skipped. -/
theorem C7_silent_skip_witness : processPlay wT1 9 9 "GO" = none :=
  (C7_silent_skip wT1 9 9 "GO" (Or.inl (by norm_num +decide [playData, wT1]))).1

/-- C10: the displacement loop never considers an offensive player with
fewer than two frames (every candidate has at least two), and a targeted
play all of whose receiver-eligible offensive players have fewer than
two frames yields no record at all, defenders and throw positions
notwithstanding. -/
theorem C10_single_frame_never_selected (tracking : List TrackRow) (g p : ℕ)
    (route : String)
    (hshort : ∀ id ∈ (offensivePlayers (playData tracking g p)).map (·.nfl_id),
      isEligible (offensivePlayers (playData tracking g p)) id = true →
      ((offensivePlayers (playData tracking g p)).filter
        (fun r => r.nfl_id = id)).length < 2) :
    (∀ (off : List TrackRow) (c : Candidate), c ∈ playerDisplacements off →
      2 ≤ (off.filter (fun r => r.nfl_id = c.nfl_id)).length) ∧
    processPlay tracking g p route = none := by
  constructor
  · intro off c hc
    rcases List.mem_filterMap.mp hc with ⟨id, hid, hmk⟩
    rcases mkCandidate_some off id c hmk with ⟨hcid, _, _, _, hlen⟩
    rw [hcid]
    rw [playerFramesSorted_length] at hlen
    exact hlen
  · have hcands : playerDisplacements (offensivePlayers (playData tracking g p)) = [] := by
      unfold playerDisplacements
      rw [List.filterMap_eq_nil]
      intro id hid
      have hidmem : id ∈ (offensivePlayers (playData tracking g p)).map (·.nfl_id) :=
        (uniqueFirst_mem _ id).mp hid
      by_cases hel : isEligible (offensivePlayers (playData tracking g p)) id = true
      · have hlt := hshort id hidmem hel
        unfold mkCandidate
        rw [if_pos (by rw [playerFramesSorted_length]; exact hlt)]
      · cases hmk : mkCandidate (offensivePlayers (playData tracking g p)) id with
        | none => rfl
        | some c =>
          rcases mkCandidate_some _ id c hmk with ⟨_, _, helig, _, _⟩
          exact absurd helig hel
    cases hps : processPlay tracking g p route with
    | none => rfl
    | some rec =>
      exfalso
      rcases processPlay_eq_some tracking g p route rec hps with
        ⟨t, recv, nearest, ht, _, _, _⟩
      unfold targetOf at ht
      rw [hcands] at ht
      exact Option.noConfusion ht

/-- Witness for C10: the play (1,2) has one WR with a single frame and a
defender at the throw frame, and produces no record. -/
theorem C10_single_frame_never_selected_witness :
    processPlay wT2 1 2 "GO" = none :=
  (C10_single_frame_never_selected wT2 1 2 "GO" (by decide)).2

end NFL
